import Mathlib

/-!
Verification of the `shelley` command-execution core of `hfc`.

This file gives a shallow embedding of `internal/shelley/shelley.go` — the
process-execution builder of the `hfc` repository — and proves the spec's
claims about it.

Modelling conventions:
* A Go `string` is a Lean `String`; Go slices of strings are `List String`
  (value view).  A separate refined model of Go slice/backing-array semantics
  is given at the bottom for the alias-table frame property.
* The OS is an oracle (`World`): it maps a resolved argv and the command's
  explicit env overrides to the process outcome (`exec.Cmd.Run`'s error) and
  to the bytes the process writes on stdout.  The ambient `os.Environ()`
  prefix of `cmd.Env` is fixed and absorbed into the oracle.
* Go panics (index out of range on an empty argv) are modelled explicitly:
  `Stage.expandedArgs` returns `none` where Go would panic, and the panic
  propagates through every caller as `Outcome.panicked`.
* The one-slot `siblingErr` channel and the sibling goroutine are modelled by
  computing the sibling's single result and delivering it through
  `channelReceive`, which is parameterised by which side reaches the
  rendezvous first; a buffered capacity-1 channel delivers the goroutine's
  unique send to the unique receive in either interleaving.
* The third-party `shellquote.Join` is not part of this repository; every
  definition and theorem about debug tracing is parameterised by an arbitrary
  quoting function `q : List String → String` standing for it.
-/

namespace Shelley

/-- Whitespace test used by Go's `strings.TrimSpace` (`unicode.IsSpace`),
faithful on the Latin-1 range: `'\t'`–`'\r'`, `' '`, U+0085, U+00A0. -/
def goIsSpace (c : Char) : Bool :=
  c == ' ' || c == '\t' || c == '\n' || c.val == 11 || c.val == 12 ||
  c == '\r' || c.val == 0x85 || c.val == 0xA0

/-- Go `strings.TrimSpace`: drop leading and trailing whitespace. -/
def trimSpace (s : String) : String :=
  String.mk (((s.toList.dropWhile fun c => goIsSpace c).reverse.dropWhile
    fun c => goIsSpace c).reverse)

/-- Outcome of `exec.Cmd.Run()` for one OS process: `nil`, an
`*exec.ExitError` with a nonzero code, or a non-exit error (the process could
not be started / waited on). -/
inductive ProcResult where
  | exit0 : ProcResult
  | exitCode (n : Nat) : ProcResult
  | startErr (msg : String) : ProcResult
deriving DecidableEq, Repr

/-- Errors returned by `shelley`'s `run`: the typed `ExitError` (carrying the
numeric exit code of the embedded `*exec.ExitError` and the `Args` of the
originating command), or any other error passed through opaquely
(start failures, `os.Pipe` failures). -/
inductive ShelleyError where
  | exitError (code : Nat) (args : List String) : ShelleyError
  | other (msg : String) : ShelleyError
deriving DecidableEq, Repr

/-- Decision made by `errors.As(err, &exitErr)` for the `ExitError` target type. -/
def isExitError : ShelleyError → Bool
  | .exitError _ _ => true
  | .other _ => false

/-- Lines 242–246 of `run`: wrap a raw `*exec.ExitError` as
`ExitError{exitErr, c.args}`; return any other error unchanged; `nil` stays
`nil`. -/
def classify (args : List String) : ProcResult → Option ShelleyError
  | .exit0 => none
  | .exitCode n => some (.exitError n args)
  | .startErr m => some (.other m)

/-- Lines 238–246 of `run`: `if serr := <-siblingErr; serr != nil && err == nil
{ return serr }` followed by classification of the primary's own error. -/
def mergeClassify (p : ProcResult) (serr : Option ShelleyError)
    (args : List String) : Option ShelleyError :=
  match serr, p with
  | some e, .exit0 => some e
  | _, _ => classify args p

/-- The `Context` of `shelley.go`: default streams (only their identity as
sinks is modelled), the alias table, and whether `DebugLogger` is non-nil. -/
structure Context where
  aliases : List (String × List String)
  debugOn : Bool
deriving DecidableEq, Repr

/-- One pipeline stage: the fields of the Go `Cmd` struct other than its
`sibling` pointer (`context`, `args`, `envs`, `nostdout`, `nostderr`).  The
derived `cmd *exec.Cmd` handle is not state of the model; it is reconstructed
where used. -/
structure Stage where
  ctx : Context
  args : List String
  envs : List String
  nostdout : Bool
  nostderr : Bool
deriving DecidableEq, Repr

/-- A `Cmd`: its own stage plus the chain of sibling stages reached by
following `sibling` pointers (head = immediate sibling).  Sibling chains are
acyclic in Go because `Pipe` is the only way to create one, so a `Cmd` is
exactly a nonempty chain of stages. -/
structure Cmd where
  stage : Stage
  siblings : List Stage
deriving DecidableEq, Repr

/-- Constructor `Context.Command`: a new command with the given args and zeroed options. -/
def Context.Command (c : Context) (args : List String) : Cmd :=
  { stage := { ctx := c, args := args, envs := [], nostdout := false,
               nostderr := false }, siblings := [] }

/-- Builder `Cmd.Pipe`: a new command whose sibling is the receiver; only the context
is carried over — env overrides, suppression flags are not inherited. -/
def Cmd.Pipe (c : Cmd) (args : List String) : Cmd :=
  { stage := { ctx := c.stage.ctx, args := args, envs := [], nostdout := false,
               nostderr := false }, siblings := c.stage :: c.siblings }

/-- Builder `Cmd.Env`: appends `name+"="+value` to the command's env overrides. -/
def Cmd.Env (c : Cmd) (name value : String) : Cmd :=
  { c with stage := { c.stage with envs := c.stage.envs ++ [name ++ "=" ++ value] } }

/-- Builder `Cmd.NoStdout`. -/
def Cmd.NoStdout (c : Cmd) : Cmd :=
  { c with stage := { c.stage with nostdout := true } }

/-- Builder `Cmd.NoStderr`. -/
def Cmd.NoStderr (c : Cmd) : Cmd :=
  { c with stage := { c.stage with nostderr := true } }

/-- Builder `Cmd.NoOutput`, the chaining `NoStdout().NoStderr()`. -/
def Cmd.NoOutput (c : Cmd) : Cmd := c.NoStdout.NoStderr

/-- Alias expansion `expandedArgs` (lines 213–218): if the alias table maps `c.args[0]`,
return `append(slices.Clone(alias), c.args[1:]...)`; otherwise `c.args`.
Reading `c.args[0]` of an empty argv panics in Go (index out of range);
that is the `none` case. -/
def Stage.expandedArgs (st : Stage) : Option (List String) :=
  match st.args with
  | [] => none
  | a0 :: rest =>
    match st.ctx.aliases.lookup a0 with
    | some al => some (al ++ rest)
    | none => some (a0 :: rest)

/-- The OS oracle: process outcome and stdout bytes as a function of the
resolved argv and the command's env overrides, plus whether `os.Pipe` fails. -/
structure World where
  proc : List String → List String → ProcResult
  output : List String → List String → String
  pipeFail : Option String

/-- Which side of the pipeline reaches the `siblingErr` rendezvous first. -/
inductive FinishOrder where
  | siblingFirst : FinishOrder
  | primaryFirst : FinishOrder
deriving DecidableEq, Repr

/-- The receive `<-siblingErr` from the capacity-1 channel into which the
sibling goroutine sends exactly one value.  If the send happened first the
value is already buffered; otherwise the receiver blocks on the open channel
until the send, then takes the value.  Either way it obtains the sibling's
single result. -/
def channelReceive (o : FinishOrder) (sent : Option ShelleyError) :
    Option ShelleyError :=
  match o with
  | .siblingFirst => sent
  | .primaryFirst => sent

/-- Where a command's stdout is pointed when `run` begins. -/
inductive StdoutDest where
  | unset : StdoutDest
  | buffer : StdoutDest
  | pipe : StdoutDest
  | ctxOut : StdoutDest
  | null : StdoutDest
deriving DecidableEq, Repr

/-- Lines 224–226 of `run`: `if c.cmd.Stdout == nil && !c.nostdout
{ c.cmd.Stdout = c.context.Stdout }`; a still-nil stdout of a suppressed
command stays nil (discarded). -/
def resolveStdout (preset : StdoutDest) (nostdout : Bool) : StdoutDest :=
  match preset with
  | .unset => if nostdout then .null else .ctxOut
  | d => d

/-- Bytes delivered to (Text buffer, context default stdout) when `out` is
written to `dest`. -/
def destWrites (dest : StdoutDest) (out : String) : String × String :=
  match dest with
  | .buffer => (out, "")
  | .ctxOut => ("", out)
  | _ => ("", "")

/-- Observable result of one (non-panicking) `run` call: the returned error,
the bytes that reached a `Text` buffer and the context's default stdout,
whether the immediate sibling goroutine was launched / its channel receive
executed, and counters accumulating over every depth of the sibling chain
how many goroutines were launched (`tasksStarted`) and how many channel
receives were executed (`tasksJoined`). -/
structure RunResult where
  err : Option ShelleyError
  bufferOut : String
  ctxOut : String
  siblingStarted : Bool
  siblingJoined : Bool
  tasksStarted : Nat
  tasksJoined : Nat
deriving DecidableEq, Repr

/-- A `run` call either panics (propagating a Go runtime panic) or yields a
`RunResult`. -/
inductive Outcome where
  | panicked : Outcome
  | ok (r : RunResult) : Outcome
deriving DecidableEq, Repr

/-- Function `run` (lines 220–247) together with `startSibling` (lines 249–284), for a
stage whose `exec.Cmd` was already initialized with `resolved` argv and whose
stdout was preset to `preset`.  Stream wiring for stdin/stderr has no
observable effect in this model and is omitted.

With a sibling present: `os.Pipe` failure returns that error before launching
the goroutine; otherwise `c.sibling.initCmd()` runs (panicking on an empty
sibling argv), the sibling's stdout is preset to the pipe's write end, the
goroutine computes `c.sibling.run()` and sends it on `siblingErr`.  The
primary then runs, receives the sibling's single result, and merges per
`mergeClassify`.  A panic inside the goroutine crashes the program. -/
def runStages (w : World) (o : FinishOrder) :
    Stage → List Stage → StdoutDest → List String → Outcome
  | st, [], preset, resolved =>
    -- no sibling: siblingErr is closed empty, the receive yields nil
    let p := w.proc resolved st.envs
    let dest := resolveStdout preset st.nostdout
    let writes := destWrites dest (w.output resolved st.envs)
    .ok { err := mergeClassify p none st.args, bufferOut := writes.1,
          ctxOut := writes.2, siblingStarted := false, siblingJoined := true,
          tasksStarted := 0, tasksJoined := 0 }
  | st, sib :: rest, preset, resolved =>
    match w.pipeFail with
    | some m =>
      -- run returns the os.Pipe error directly; the goroutine never started
      .ok { err := some (.other m), bufferOut := "", ctxOut := "",
            siblingStarted := false, siblingJoined := false,
            tasksStarted := 0, tasksJoined := 0 }
    | none =>
      match sib.expandedArgs with
      | none => .panicked   -- c.sibling.initCmd() reads an empty argv
      | some sres =>
        match runStages w o sib rest .pipe sres with
        | .panicked => .panicked
        | .ok sr =>
          let p := w.proc resolved st.envs
          let serr := channelReceive o sr.err
          let dest := resolveStdout preset st.nostdout
          let writes := destWrites dest (w.output resolved st.envs)
          .ok { err := mergeClassify p serr st.args,
                bufferOut := sr.bufferOut ++ writes.1,
                ctxOut := sr.ctxOut ++ writes.2,
                siblingStarted := true, siblingJoined := true,
                tasksStarted := sr.tasksStarted + 1,
                tasksJoined := sr.tasksJoined + 1 }

/-- Go `strings.SplitN(s, "=", 2)` on the character list: the parts before and
after the first `'='`, or `none` when there is none. -/
def splitAfterEq : List Char → Option (List Char × List Char)
  | [] => none
  | c :: cs =>
    if c = '=' then some ([], cs)
    else (splitAfterEq cs).map fun p => (c :: p.1, p.2)

/-- One env override rendered by `logDebug`:
`split[0] + "=" + shellquote.Join(split[1]) + " "`.  Entries built by `Env`
always contain `'='`; on a (unreachable) entry without one, Go would panic
reading `split[1]`. -/
def envEntry (q : List String → String) (env : String) : String :=
  match splitAfterEq env.toList with
  | some p => String.mk p.1 ++ "=" ++ q [String.mk p.2] ++ " "
  | none => ""

/-- The `envString` accumulator of `logDebug`, in override order. -/
def envString (q : List String → String) (envs : List String) : String :=
  envs.foldl (fun acc env => acc ++ envEntry q env) ""

/-- The single line `logDebug` prints for one command:
`envString + shellquote.Join(c.args...)`. -/
def debugLine (q : List String → String) (st : Stage) : String :=
  envString q st.envs ++ q st.args

/-- Tracing `logDebug` (lines 286–301): nothing when the context's `DebugLogger` is
nil; otherwise the sibling's lines (recursively, sibling-first) followed by
this command's own line. -/
def logDebugStages (q : List String → String) : Stage → List Stage → List String
  | st, sibs =>
    if st.ctx.debugOn then
      (match sibs with
       | s :: rest => logDebugStages q s rest
       | [] => []) ++ [debugLine q st]
    else []

/-- Terminal method `Cmd.Run` (lines 165–169): `logDebug`, `initCmd` (whose alias expansion
panics on an empty argv), then `run` with no stdout preset.  Returns the
emitted debug lines and the run outcome. -/
def Cmd.Run (q : List String → String) (w : World) (o : FinishOrder)
    (c : Cmd) : List String × Outcome :=
  (logDebugStages q c.stage c.siblings,
   match c.stage.expandedArgs with
   | none => .panicked
   | some resolved => runStages w o c.stage c.siblings .unset resolved)

/-- Terminal method `Cmd.Text` (lines 172–185): like `Run` but the primary's stdout is preset
to a fresh in-memory buffer before `run`. -/
def Cmd.Text (q : List String → String) (w : World) (o : FinishOrder)
    (c : Cmd) : List String × Outcome :=
  (logDebugStages q c.stage c.siblings,
   match c.stage.expandedArgs with
   | none => .panicked
   | some resolved => runStages w o c.stage c.siblings .buffer resolved)

/-- The `(string, error)` pair `Text` returns:
`strings.TrimSpace(stdout.String())` and the run's error (undefined on a
panic). -/
def textRet : Outcome → Option (String × Option ShelleyError)
  | .panicked => none
  | .ok r => some (trimSpace r.bufferOut, r.err)

/-- Terminal method `Cmd.Successful` (lines 190–205): `logDebug`, `initCmd`, `run` with no
stdout preset. -/
def Cmd.Successful (q : List String → String) (w : World) (o : FinishOrder)
    (c : Cmd) : List String × Outcome :=
  (logDebugStages q c.stage c.siblings,
   match c.stage.expandedArgs with
   | none => .panicked
   | some resolved => runStages w o c.stage c.siblings .unset resolved)

/-- The `(bool, error)` pair `Successful` returns: `(true, nil)` on a nil
error, `(false, nil)` when `errors.As` matches an `ExitError`, and
`(false, err)` otherwise. -/
def successfulRet : Outcome → Option (Bool × Option ShelleyError)
  | .panicked => none
  | .ok r =>
    match r.err with
    | none => some (true, none)
    | some e => if isExitError e then some (false, none) else some (false, some e)

/-- Well-formed OS oracle: `exec.ExitError` codes of normally exited
processes lie in 1–255. -/
def World.wf (w : World) : Prop :=
  ∀ a e n, w.proc a e = .exitCode n → 0 < n ∧ n < 256

/-- A quoting function standing in for `shellquote.Join` in closed
evaluations; it agrees with the real one on words containing no shell
metacharacters and no whitespace. -/
def plainJoin (ws : List String) : String :=
  String.intercalate " " ws

/-- Projection of an `Outcome` to the error `run` returned (`none` on a
panic). -/
def runErr : Outcome → Option (Option ShelleyError)
  | .panicked => none
  | .ok r => some r.err

/-- Conditions under which a sibling chain runs without a Go panic or an
`os.Pipe` failure: the pipe opens and every stage's argv is nonempty. -/
def chainOK (w : World) : List Stage → Prop
  | [] => True
  | s :: rest =>
    w.pipeFail = none ∧ (∃ r, s.expandedArgs = some r) ∧ chainOK w rest

/-- A context with no aliases and no debug sink, for concrete evaluations. -/
def noCtx : Context := { aliases := [], debugOn := false }

/-- A context with a debug sink configured, for concrete evaluations. -/
def dbgCtx : Context := { aliases := [], debugOn := true }

/-- A context defining the alias `g ↦ git --paginate`, with the debug sink
configured, for concrete evaluations. -/
def aliasCtx : Context :=
  { aliases := [("g", ["git", "--paginate"])], debugOn := true }

/-- A concrete upstream stage, for concrete evaluations. -/
def upStage : Stage :=
  { ctx := noCtx, args := ["upstream"], envs := [], nostdout := false,
    nostderr := false }

/-- A concrete downstream stage, for concrete evaluations. -/
def downStage : Stage :=
  { ctx := noCtx, args := ["downstream"], envs := [], nostdout := false,
    nostderr := false }

/-- A concrete OS oracle: `upstream` exits 3 after writing partial output;
everything else succeeds; `downstream` writes `"  a\nb\n  "`. -/
def testWorld : World :=
  { proc := fun a _ => if a = ["upstream"] then .exitCode 3 else .exit0,
    output := fun a _ => if a = ["downstream"] then "  a\nb\n  " else "partial",
    pipeFail := none }

/-- A concrete OS oracle in which the `downstream` process fails to start. -/
def startFailWorld : World :=
  { proc := fun a _ =>
      if a = ["downstream"] then .startErr "exec: spawn failed" else .exit0,
    output := fun _ _ => "", pipeFail := none }

/-- The run result of the single command `downStage` under `startFailWorld`:
a start failure, joined trivially-closed sibling channel. -/
def failRes : RunResult :=
  { err := some (.other "exec: spawn failed"), bufferOut := "", ctxOut := "",
    siblingStarted := false, siblingJoined := true, tasksStarted := 0,
    tasksJoined := 0 }

end Shelley

namespace GoSlice

/-!
Refined model of Go slice semantics for the alias table, faithful to
backing-array aliasing: a slice is a reference into a store of backing
arrays together with its length (alias slices always start at offset 0).
`append` writes into spare capacity of the same backing array when it
suffices — mutating every slice sharing that array — and reallocates
otherwise; `slices.Clone` always allocates a fresh backing array of exactly
the viewed elements.
-/

/-- A Go slice value over the store: backing-array id and length. -/
structure Slice where
  arr : Nat
  len : Nat
deriving DecidableEq, Repr

/-- The heap of backing arrays; ids are list positions. -/
structure Store where
  arrays : List (List String)
deriving DecidableEq, Repr

/-- Contents of backing array `i`. -/
def Store.get (s : Store) (i : Nat) : List String := s.arrays.getD i []

/-- The elements a slice views. -/
def view (s : Store) (sl : Slice) : List String := (s.get sl.arr).take sl.len

/-- Capacity of a slice (its whole backing array, offset 0). -/
def capOf (s : Store) (sl : Slice) : Nat := (s.get sl.arr).length

/-- Allocation of a fresh backing array holding `content`. -/
def alloc (s : Store) (content : List String) : Store × Slice :=
  ({ arrays := s.arrays ++ [content] },
   { arr := s.arrays.length, len := content.length })

/-- Overwrite of `l` at positions `i, i+1, …` by the elements of `xs`. -/
def writeFrom (l : List String) (i : Nat) (xs : List String) : List String :=
  l.take i ++ xs ++ l.drop (i + xs.length)

/-- Replacement of backing array `i`. -/
def Store.put (s : Store) (i : Nat) (content : List String) : Store :=
  { arrays := s.arrays.set i content }

/-- Go `append(sl, xs...)`: write into spare capacity of the same backing
array when it suffices (mutating the store in place), else allocate a fresh
array holding the concatenation. -/
def goAppend (s : Store) (sl : Slice) (xs : List String) : Store × Slice :=
  if sl.len + xs.length ≤ capOf s sl then
    (s.put sl.arr (writeFrom (s.get sl.arr) sl.len xs),
     { arr := sl.arr, len := sl.len + xs.length })
  else
    alloc s (view s sl ++ xs)

/-- Go `slices.Clone(sl)`: a fresh backing array of exactly the view. -/
def goClone (s : Store) (sl : Slice) : Store × Slice := alloc s (view s sl)

/-- Alias expansion `expandedArgs` at the Go slice level:
`append(slices.Clone(alias), c.args[1:]...)` when the alias table maps
`args[0]`, threading the store; `none` models the panic on an empty argv.
Returns the new store and the expanded argv's elements. -/
def expandedArgsS (s : Store) (aliases : List (String × Slice))
    (args : List String) : Option (Store × List String) :=
  match args with
  | [] => none
  | a0 :: rest =>
    match aliases.lookup a0 with
    | some al =>
      let c1 := goClone s al
      let c2 := goAppend c1.1 c1.2 rest
      some (c2.1, view c2.1 c2.2)
    | none => some (s, args)

end GoSlice

namespace Shelley

/-! ## Supporting lemmas -/

theorem channelReceive_eq (o : FinishOrder) (x : Option ShelleyError) :
    channelReceive o x = x := by
  cases o <;> rfl

theorem mergeClassify_none (p : ProcResult) (args : List String) :
    mergeClassify p none args = classify args p := by
  cases p <;> rfl

theorem mergeClassify_primaryFailed (p : ProcResult) (s : Option ShelleyError)
    (args : List String) (h : p ≠ .exit0) :
    mergeClassify p s args = classify args p := by
  cases p with
  | exit0 => exact absurd rfl h
  | exitCode n => cases s <;> rfl
  | startErr m => cases s <;> rfl

theorem mergeClassify_exitError (p : ProcResult) (s : Option ShelleyError)
    (args : List String) (n : Nat) (a : List String)
    (h : mergeClassify p s args = some (.exitError n a)) :
    (p = .exitCode n ∧ a = args) ∨ (p = .exit0 ∧ s = some (.exitError n a)) := by
  cases p <;> cases s <;> simp [mergeClassify, classify] at h <;> simp_all

theorem mergeClassify_other (p : ProcResult) (s : Option ShelleyError)
    (args : List String) (m : String)
    (h : mergeClassify p s args = some (.other m)) :
    p = .startErr m ∨ (p = .exit0 ∧ s = some (.other m)) := by
  cases p <;> cases s <;> simp [mergeClassify, classify] at h <;> simp_all

theorem classify_exitError_inv (args : List String) (p : ProcResult) (n : Nat)
    (a : List String) (h : classify args p = some (.exitError n a)) :
    p = .exitCode n ∧ a = args := by
  cases p <;> simp [classify] at h <;> simp_all

theorem runStages_order (w : World) (o o' : FinishOrder) (sibs : List Stage) :
    ∀ (st : Stage) (preset : StdoutDest) (resolved : List String),
      runStages w o st sibs preset resolved
        = runStages w o' st sibs preset resolved := by
  induction sibs with
  | nil => intro st preset resolved; rfl
  | cons sib rest ih =>
    intro st preset resolved
    cases hp : w.pipeFail with
    | some m => simp [runStages, hp]
    | none =>
      cases h : sib.expandedArgs with
      | none => simp [runStages, hp, h]
      | some sres =>
        simp only [runStages, hp, h]
        rw [ih sib .pipe sres]
        cases runStages w o' sib rest .pipe sres with
        | panicked => rfl
        | ok sr => simp only [channelReceive_eq]

theorem run_single_err (q : List String → String) (w : World) (o : FinishOrder)
    (st : Stage) (resolved : List String) (h : st.expandedArgs = some resolved) :
    runErr ((Cmd.mk st []).Run q w o).2
      = some (classify st.args (w.proc resolved st.envs)) := by
  simp [Cmd.Run, h, runStages, runErr, mergeClassify_none]

theorem run_pipe2_err (q : List String → String) (w : World) (o : FinishOrder)
    (down up : Stage) (rD rU : List String)
    (hD : down.expandedArgs = some rD) (hU : up.expandedArgs = some rU)
    (hpipe : w.pipeFail = none) :
    runErr ((Cmd.mk down [up]).Run q w o).2
      = some (mergeClassify (w.proc rD down.envs)
          (classify up.args (w.proc rU up.envs)) down.args) := by
  simp [Cmd.Run, hD, runStages, hpipe, hU, runErr, channelReceive_eq,
    mergeClassify_none]

theorem str_empty_append (s : String) : "" ++ s = s := by
  cases s with
  | mk data => rfl

theorem runStages_ok (w : World) (o : FinishOrder) (sibs : List Stage) :
    ∀ (st : Stage) (preset : StdoutDest) (resolved : List String),
      chainOK w sibs →
      ∃ r, runStages w o st sibs preset resolved = .ok r
        ∧ r.bufferOut = (destWrites (resolveStdout preset st.nostdout)
            (w.output resolved st.envs)).1
        ∧ r.ctxOut = (destWrites (resolveStdout preset st.nostdout)
            (w.output resolved st.envs)).2
        ∧ (sibs = [] → r.siblingStarted = false)
        ∧ (sibs ≠ [] → r.siblingStarted = true ∧ r.siblingJoined = true)
        ∧ r.tasksStarted = sibs.length
        ∧ r.tasksJoined = sibs.length := by
  induction sibs with
  | nil =>
    intro st preset resolved _
    exact ⟨_, rfl, rfl, rfl, fun _ => rfl, fun h => absurd rfl h, rfl, rfl⟩
  | cons sib rest ih =>
    intro st preset resolved hchain
    obtain ⟨hpipe, ⟨sres, hsres⟩, hrest⟩ := hchain
    obtain ⟨sr, hsr, hbuf, hctx, _, _, hts, htj⟩ := ih sib .pipe sres hrest
    have hbuf0 : sr.bufferOut = "" := by
      simpa [resolveStdout, destWrites] using hbuf
    have hctx0 : sr.ctxOut = "" := by
      simpa [resolveStdout, destWrites] using hctx
    have hrun : runStages w o st (sib :: rest) preset resolved
        = .ok { err := mergeClassify (w.proc resolved st.envs)
                  (channelReceive o sr.err) st.args,
                bufferOut := sr.bufferOut
                  ++ (destWrites (resolveStdout preset st.nostdout)
                        (w.output resolved st.envs)).1,
                ctxOut := sr.ctxOut
                  ++ (destWrites (resolveStdout preset st.nostdout)
                        (w.output resolved st.envs)).2,
                siblingStarted := true, siblingJoined := true,
                tasksStarted := sr.tasksStarted + 1,
                tasksJoined := sr.tasksJoined + 1 } := by
      simp only [runStages, hpipe, hsres, hsr]
    refine ⟨_, hrun, ?_, ?_, ?_, fun _ => ⟨rfl, rfl⟩, ?_, ?_⟩
    · simp [hbuf0, str_empty_append]
    · simp [hctx0, str_empty_append]
    · intro h; exact absurd h (List.cons_ne_nil _ _)
    · simp [hts]
    · simp [htj]


theorem runStages_other_origin (w : World) (o : FinishOrder) (sibs : List Stage) :
    ∀ (st : Stage) (preset : StdoutDest) (resolved : List String)
      (r : RunResult) (m : String),
      runStages w o st sibs preset resolved = .ok r →
      r.err = some (.other m) →
      w.pipeFail = some m
      ∨ w.proc resolved st.envs = .startErr m
      ∨ (∃ sib ∈ sibs, ∃ res, sib.expandedArgs = some res
          ∧ w.proc res sib.envs = .startErr m) := by
  induction sibs with
  | nil =>
    intro st preset resolved r m hrun herr
    simp only [runStages, Outcome.ok.injEq] at hrun
    rw [← hrun] at herr
    simp only [mergeClassify_none] at herr
    cases hp : w.proc resolved st.envs <;> rw [hp] at herr <;>
      simp [classify] at herr
    exact Or.inr (Or.inl (by rw [herr]))
  | cons sib rest ih =>
    intro st preset resolved r m hrun herr
    cases hp : w.pipeFail with
    | some m' =>
      simp only [runStages, hp, Outcome.ok.injEq] at hrun
      rw [← hrun] at herr
      simp only [ShelleyError.other.injEq, Option.some.injEq] at herr
      exact Or.inl (by rw [herr])
    | none =>
      cases h : sib.expandedArgs with
      | none => simp [runStages, hp, h] at hrun
      | some sres =>
        cases hs : runStages w o sib rest .pipe sres with
        | panicked => simp [runStages, hp, h, hs] at hrun
        | ok sr =>
          simp only [runStages, hp, h, hs, Outcome.ok.injEq] at hrun
          rw [← hrun] at herr
          simp only [channelReceive_eq] at herr
          rcases mergeClassify_other _ _ _ _ herr with hstart | ⟨_, hserr⟩
          · exact Or.inr (Or.inl hstart)
          · rcases ih sib .pipe sres sr m hs hserr with hip | hstart | ⟨s2, hmem, res, hres, hst⟩
            · rw [hp] at hip; cases hip
            · exact Or.inr (Or.inr ⟨sib, List.mem_cons_self _ _, sres, h, hstart⟩)
            · exact Or.inr (Or.inr ⟨s2, List.mem_cons_of_mem _ hmem, res, hres, hst⟩)

theorem runStages_exitError_origin (w : World) (o : FinishOrder)
    (sibs : List Stage) :
    ∀ (st : Stage) (preset : StdoutDest) (resolved : List String)
      (r : RunResult) (n : Nat) (a : List String),
      runStages w o st sibs preset resolved = .ok r →
      r.err = some (.exitError n a) →
      (w.proc resolved st.envs = .exitCode n ∧ a = st.args)
      ∨ (∃ sib ∈ sibs, ∃ res, sib.expandedArgs = some res
          ∧ w.proc res sib.envs = .exitCode n ∧ a = sib.args) := by
  induction sibs with
  | nil =>
    intro st preset resolved r n a hrun herr
    simp only [runStages, Outcome.ok.injEq] at hrun
    rw [← hrun] at herr
    simp only [mergeClassify_none] at herr
    obtain ⟨hp, ha⟩ := classify_exitError_inv _ _ _ _ herr
    exact Or.inl ⟨hp, ha⟩
  | cons sib rest ih =>
    intro st preset resolved r n a hrun herr
    cases hp : w.pipeFail with
    | some m =>
      simp only [runStages, hp, Outcome.ok.injEq] at hrun
      rw [← hrun] at herr
      simp at herr
    | none =>
      cases he : sib.expandedArgs with
      | none => simp [runStages, hp, he] at hrun
      | some sres =>
        cases hs : runStages w o sib rest .pipe sres with
        | panicked => simp [runStages, hp, he, hs] at hrun
        | ok sr =>
          simp only [runStages, hp, he, hs, Outcome.ok.injEq] at hrun
          rw [← hrun] at herr
          simp only [channelReceive_eq] at herr
          rcases mergeClassify_exitError _ _ _ _ _ herr with ⟨hpp, ha⟩ |
            ⟨_, hserr⟩
          · exact Or.inl ⟨hpp, ha⟩
          · rcases ih sib .pipe sres sr n a hs hserr with ⟨hup, ha⟩ |
              ⟨s2, hmem, res, hre, hpr, ha⟩
            · exact Or.inr ⟨sib, List.mem_cons_self _ _, sres, he, hup, ha⟩
            · exact Or.inr
                ⟨s2, List.mem_cons_of_mem _ hmem, res, hre, hpr, ha⟩

theorem runStages_no_leak (w : World) (o : FinishOrder) (sibs : List Stage) :
    ∀ (st : Stage) (preset : StdoutDest) (resolved : List String)
      (r : RunResult),
      runStages w o st sibs preset resolved = .ok r →
      r.tasksJoined = r.tasksStarted := by
  induction sibs with
  | nil =>
    intro st preset resolved r h
    simp only [runStages, Outcome.ok.injEq] at h
    rw [← h]
  | cons sib rest ih =>
    intro st preset resolved r h
    cases hp : w.pipeFail with
    | some m =>
      simp only [runStages, hp, Outcome.ok.injEq] at h
      rw [← h]
    | none =>
      cases he : sib.expandedArgs with
      | none => simp [runStages, hp, he] at h
      | some sres =>
        cases hs : runStages w o sib rest .pipe sres with
        | panicked => simp [runStages, hp, he, hs] at h
        | ok sr =>
          simp only [runStages, hp, he, hs, Outcome.ok.injEq] at h
          rw [← h]
          simp [ih sib .pipe sres sr hs]

theorem runErr_preset_indep (w : World) (o : FinishOrder)
    (sibs : List Stage) (st : Stage) (resolved : List String)
    (p1 p2 : StdoutDest) :
    runErr (runStages w o st sibs p1 resolved)
      = runErr (runStages w o st sibs p2 resolved) := by
  cases sibs with
  | nil => rfl
  | cons sib rest =>
    cases hp : w.pipeFail with
    | some m => simp [runStages, hp]
    | none =>
      cases h : sib.expandedArgs with
      | none => simp [runStages, hp, h]
      | some sres =>
        cases hs : runStages w o sib rest .pipe sres <;>
          simp [runStages, hp, h, hs, runErr]

theorem terminal_err_agree (q : List String → String) (w : World)
    (o : FinishOrder) (c : Cmd) :
    runErr (c.Text q w o).2 = runErr (c.Run q w o).2
    ∧ runErr (c.Successful q w o).2 = runErr (c.Run q w o).2 := by
  constructor
  · simp only [Cmd.Text, Cmd.Run]
    cases h : c.stage.expandedArgs with
    | none => rfl
    | some resolved =>
      simpa using
        runErr_preset_indep w o c.siblings c.stage resolved .buffer .unset
  · rfl

/-! ## Claims -/

/-- C1: For every command run by a terminal method that has a sibling, the
merged pipeline result obeys pipefail precedence as a deterministic function
of each side's own outcome: the returned error equals
`mergeClassify primaryOutcome siblingError`, so if the primary's run produced
no error but the sibling's did, the sibling's failure is returned; if the
primary failed, the primary's error wins regardless of the sibling; if
neither failed the result is nil — and the whole call is independent of which
process finishes first. -/
theorem run_pipefail_merge (q : List String → String) (w : World)
    (o o' : FinishOrder) (down up : Stage) (rD rU : List String)
    (hD : down.expandedArgs = some rD) (hU : up.expandedArgs = some rU)
    (hpipe : w.pipeFail = none) :
    (runErr ((Cmd.mk down [up]).Run q w o).2
        = some (mergeClassify (w.proc rD down.envs)
            (classify up.args (w.proc rU up.envs)) down.args))
    ∧ (∀ e, w.proc rD down.envs = .exit0 →
        classify up.args (w.proc rU up.envs) = some e →
        runErr ((Cmd.mk down [up]).Run q w o).2 = some (some e))
    ∧ (w.proc rD down.envs ≠ .exit0 →
        runErr ((Cmd.mk down [up]).Run q w o).2
          = some (classify down.args (w.proc rD down.envs)))
    ∧ (w.proc rD down.envs = .exit0 →
        classify up.args (w.proc rU up.envs) = none →
        runErr ((Cmd.mk down [up]).Run q w o).2 = some none)
    ∧ (Cmd.mk down [up]).Run q w o = (Cmd.mk down [up]).Run q w o'
    ∧ runErr ((Cmd.mk down [up]).Text q w o).2
        = runErr ((Cmd.mk down [up]).Run q w o).2
    ∧ runErr ((Cmd.mk down [up]).Successful q w o).2
        = runErr ((Cmd.mk down [up]).Run q w o).2
    ∧ (∀ (sib : Stage) (rest : List Stage) (sres : List String)
          (sr : RunResult), sib.expandedArgs = some sres →
        runStages w o sib rest .pipe sres = .ok sr →
        runErr ((Cmd.mk down (sib :: rest)).Run q w o).2
          = some (mergeClassify (w.proc rD down.envs) sr.err down.args)) := by
  have base := run_pipe2_err q w o down up rD rU hD hU hpipe
  refine ⟨base, ?_, ?_, ?_, ?_, (terminal_err_agree q w o _).1,
    (terminal_err_agree q w o _).2, ?_⟩
  · intro e hp hs
    rw [base, hp, hs]; rfl
  · intro hne
    rw [base, mergeClassify_primaryFailed _ _ _ hne]
  · intro hp hs
    rw [base, hp, hs, mergeClassify_none]; rfl
  · simp only [Cmd.Run]
    cases down.expandedArgs with
    | none => rfl
    | some res => simp only [runStages_order w o o' [up]]
  · intro sib rest sres sr hs hsr
    simp [Cmd.Run, hD, runStages, hpipe, hs, hsr, runErr, channelReceive_eq]

/-- Closed instance of C1 on a concrete pipeline: the upstream exits 3, the
downstream exits 0, and the merged result is the upstream's failure. -/
theorem run_pipefail_merge_witness :
    (downStage.expandedArgs = some ["downstream"]
     ∧ upStage.expandedArgs = some ["upstream"]
     ∧ testWorld.pipeFail = none)
    ∧ ((runErr ((Cmd.mk downStage [upStage]).Run plainJoin testWorld
          .siblingFirst).2
        = some (mergeClassify (testWorld.proc ["downstream"] downStage.envs)
            (classify upStage.args
              (testWorld.proc ["upstream"] upStage.envs)) downStage.args))
      ∧ (∀ e, testWorld.proc ["downstream"] downStage.envs = .exit0 →
          classify upStage.args (testWorld.proc ["upstream"] upStage.envs)
            = some e →
          runErr ((Cmd.mk downStage [upStage]).Run plainJoin testWorld
            .siblingFirst).2 = some (some e))
      ∧ (testWorld.proc ["downstream"] downStage.envs ≠ .exit0 →
          runErr ((Cmd.mk downStage [upStage]).Run plainJoin testWorld
            .siblingFirst).2
            = some (classify downStage.args
                (testWorld.proc ["downstream"] downStage.envs)))
      ∧ (testWorld.proc ["downstream"] downStage.envs = .exit0 →
          classify upStage.args (testWorld.proc ["upstream"] upStage.envs)
            = none →
          runErr ((Cmd.mk downStage [upStage]).Run plainJoin testWorld
            .siblingFirst).2 = some none)
      ∧ (Cmd.mk downStage [upStage]).Run plainJoin testWorld .siblingFirst
          = (Cmd.mk downStage [upStage]).Run plainJoin testWorld
              .primaryFirst
      ∧ runErr ((Cmd.mk downStage [upStage]).Text plainJoin testWorld
            .siblingFirst).2
          = runErr ((Cmd.mk downStage [upStage]).Run plainJoin testWorld
              .siblingFirst).2
      ∧ runErr ((Cmd.mk downStage [upStage]).Successful plainJoin testWorld
            .siblingFirst).2
          = runErr ((Cmd.mk downStage [upStage]).Run plainJoin testWorld
              .siblingFirst).2
      ∧ (∀ (sib : Stage) (rest : List Stage) (sres : List String)
            (sr : RunResult), sib.expandedArgs = some sres →
          runStages testWorld .siblingFirst sib rest .pipe sres = .ok sr →
          runErr ((Cmd.mk downStage (sib :: rest)).Run plainJoin testWorld
              .siblingFirst).2
            = some (mergeClassify
                (testWorld.proc ["downstream"] downStage.envs) sr.err
                downStage.args))) :=
  ⟨⟨by decide, by decide, rfl⟩,
   run_pipefail_merge plainJoin testWorld .siblingFirst .primaryFirst
     downStage upStage ["downstream"] ["upstream"] (by decide) (by decide) rfl⟩

/-- C2: every `ExitError` returned by a terminal method (Run, Text,
Successful) exposes the numeric exit code `N` (`0 < N < 256`) of the process
that exited nonzero, and carries argv equal to that stage's original
invocation — the argument list the stage was constructed with, before alias
expansion — never the argv of a downstream observing command.  The last
conjunct states this for arbitrary commands, including pipelines of any
length: whichever terminal method returned the ExitError, some stage of the
chain exited with exactly that code, and the carried argv is that stage's
constructed argv. -/
theorem exitError_code_and_argv (q : List String → String) (w : World)
    (o : FinishOrder) (hwf : w.wf)
    (st : Stage) (rS : List String) (hS : st.expandedArgs = some rS)
    (down up : Stage) (rD rU : List String)
    (hD : down.expandedArgs = some rD) (hU : up.expandedArgs = some rU)
    (hpipe : w.pipeFail = none) :
    (∀ n, w.proc rS st.envs = .exitCode n →
      runErr ((Cmd.mk st []).Run q w o).2
        = some (some (.exitError n st.args)) ∧ 0 < n ∧ n < 256)
    ∧ (∀ n a, runErr ((Cmd.mk down [up]).Run q w o).2
          = some (some (.exitError n a)) →
        (0 < n ∧ n < 256)
        ∧ ((a = down.args ∧ w.proc rD down.envs = .exitCode n)
            ∨ (a = up.args ∧ w.proc rU up.envs = .exitCode n
                ∧ w.proc rD down.envs = .exit0)))
    ∧ (∀ c : Cmd, runErr (c.Text q w o).2 = runErr (c.Run q w o).2
        ∧ runErr (c.Successful q w o).2 = runErr (c.Run q w o).2)
    ∧ (∀ (c : Cmd) (n : Nat) (a : List String),
        (runErr (c.Run q w o).2 = some (some (.exitError n a))
         ∨ runErr (c.Text q w o).2 = some (some (.exitError n a))
         ∨ runErr (c.Successful q w o).2 = some (some (.exitError n a))) →
        (0 < n ∧ n < 256)
        ∧ ∃ stg res, (stg = c.stage ∨ stg ∈ c.siblings)
            ∧ stg.expandedArgs = some res
            ∧ w.proc res stg.envs = .exitCode n ∧ a = stg.args) := by
  refine ⟨?_, ?_, fun c => terminal_err_agree q w o c, ?_⟩
  · intro n hp
    refine ⟨?_, hwf _ _ _ hp⟩
    rw [run_single_err q w o st rS hS, hp]
    rfl
  · intro n a herr
    rw [run_pipe2_err q w o down up rD rU hD hU hpipe] at herr
    simp only [Option.some.injEq] at herr
    rcases mergeClassify_exitError _ _ _ _ _ herr with ⟨hp, ha⟩ | ⟨hp, hs⟩
    · exact ⟨hwf _ _ _ hp, Or.inl ⟨ha, hp⟩⟩
    · obtain ⟨hup, ha⟩ := classify_exitError_inv _ _ _ _ hs
      exact ⟨hwf _ _ _ hup, Or.inr ⟨ha, hup, hp⟩⟩
  · intro c n a hdisj
    have hrunE : runErr (c.Run q w o).2 = some (some (.exitError n a)) := by
      rcases hdisj with h | h | h
      · exact h
      · rw [← (terminal_err_agree q w o c).1]
        exact h
      · rw [← (terminal_err_agree q w o c).2]
        exact h
    cases hres : c.stage.expandedArgs with
    | none => simp [Cmd.Run, hres, runErr] at hrunE
    | some resolved =>
      cases hout : runStages w o c.stage c.siblings .unset resolved with
      | panicked => simp [Cmd.Run, hres, hout, runErr] at hrunE
      | ok r =>
        have herr : r.err = some (.exitError n a) := by
          simpa [Cmd.Run, hres, hout, runErr] using hrunE
        rcases runStages_exitError_origin w o c.siblings c.stage .unset
            resolved r n a hout herr with ⟨hp, ha⟩ |
            ⟨sib, hmem, res, hre, hp, ha⟩
        · exact ⟨hwf _ _ _ hp, c.stage, resolved, Or.inl rfl, hres, hp, ha⟩
        · exact ⟨hwf _ _ _ hp, sib, res, Or.inr hmem, hre, hp, ha⟩

/-- Closed instance of C2: the upstream of the concrete pipeline exits 3 and
the merged `ExitError` carries code 3 with the upstream's argv. -/
theorem exitError_code_and_argv_witness :
    (testWorld.wf
     ∧ downStage.expandedArgs = some ["downstream"]
     ∧ upStage.expandedArgs = some ["upstream"])
    ∧ ((∀ n, testWorld.proc ["downstream"] downStage.envs = .exitCode n →
        runErr ((Cmd.mk downStage []).Run plainJoin testWorld
            .siblingFirst).2
          = some (some (.exitError n downStage.args)) ∧ 0 < n ∧ n < 256)
      ∧ (∀ n a, runErr ((Cmd.mk downStage [upStage]).Run plainJoin testWorld
              .siblingFirst).2
            = some (some (.exitError n a)) →
          (0 < n ∧ n < 256)
          ∧ ((a = downStage.args
                ∧ testWorld.proc ["downstream"] downStage.envs = .exitCode n)
              ∨ (a = upStage.args
                  ∧ testWorld.proc ["upstream"] upStage.envs = .exitCode n
                  ∧ testWorld.proc ["downstream"] downStage.envs
                      = .exit0)))
      ∧ (∀ c : Cmd, runErr (c.Text plainJoin testWorld .siblingFirst).2
            = runErr (c.Run plainJoin testWorld .siblingFirst).2
          ∧ runErr (c.Successful plainJoin testWorld .siblingFirst).2
            = runErr (c.Run plainJoin testWorld .siblingFirst).2)
      ∧ (∀ (c : Cmd) (n : Nat) (a : List String),
          (runErr (c.Run plainJoin testWorld .siblingFirst).2
              = some (some (.exitError n a))
           ∨ runErr (c.Text plainJoin testWorld .siblingFirst).2
              = some (some (.exitError n a))
           ∨ runErr (c.Successful plainJoin testWorld .siblingFirst).2
              = some (some (.exitError n a))) →
          (0 < n ∧ n < 256)
          ∧ ∃ stg res, (stg = c.stage ∨ stg ∈ c.siblings)
              ∧ stg.expandedArgs = some res
              ∧ testWorld.proc res stg.envs = .exitCode n
              ∧ a = stg.args)) :=
  ⟨⟨fun a e n h => by
      by_cases ha : a = ["upstream"] <;>
        simp [testWorld, ha] at h <;> simp [← h] <;> omega,
    by decide, by decide⟩,
   exitError_code_and_argv plainJoin testWorld .siblingFirst
     (fun a e n h => by
       by_cases ha : a = ["upstream"] <;>
         simp [testWorld, ha] at h <;> simp [← h] <;> omega)
     downStage ["downstream"] (by decide)
     downStage upStage ["downstream"] ["upstream"] (by decide) (by decide)
     rfl⟩


/-- C3: whenever the sibling task of a pipeline has been started, every
terminal call (Run, Text, Successful) receives the sibling task's single
result from the one-slot completion channel before returning; nothing is
assumed about the primary's own outcome, which may be a nonzero exit or a
failure to start, so the sibling's result is never silently dropped and no
background task is leaked.  The counters extend this to every depth of an
arbitrary sibling chain: one goroutine is launched per chain stage and every
launched goroutine's result is received — and for every command and every
terminal call whatsoever, the number of receives executed equals the number
of goroutines launched. -/
theorem sibling_result_always_joined (q : List String → String) (w : World)
    (o : FinishOrder) (st : Stage) (sibs : List Stage)
    (resolved : List String) (hres : st.expandedArgs = some resolved)
    (hsibs : sibs ≠ []) (hchain : chainOK w sibs) :
    (∃ r, ((Cmd.mk st sibs).Run q w o).2 = .ok r
      ∧ r.siblingStarted = true ∧ r.siblingJoined = true
      ∧ r.tasksStarted = sibs.length ∧ r.tasksJoined = sibs.length)
    ∧ (∃ r, ((Cmd.mk st sibs).Text q w o).2 = .ok r
      ∧ r.siblingStarted = true ∧ r.siblingJoined = true
      ∧ r.tasksStarted = sibs.length ∧ r.tasksJoined = sibs.length)
    ∧ (∃ r, ((Cmd.mk st sibs).Successful q w o).2 = .ok r
      ∧ r.siblingStarted = true ∧ r.siblingJoined = true
      ∧ r.tasksStarted = sibs.length ∧ r.tasksJoined = sibs.length)
    ∧ (∀ (c : Cmd) (r : RunResult),
        ((c.Run q w o).2 = .ok r ∨ (c.Text q w o).2 = .ok r
          ∨ (c.Successful q w o).2 = .ok r) →
        r.tasksJoined = r.tasksStarted) := by
  obtain ⟨r1, h1, _, _, _, hj1, ht1, hl1⟩ :=
    runStages_ok w o sibs st .unset resolved hchain
  obtain ⟨r2, h2, _, _, _, hj2, ht2, hl2⟩ :=
    runStages_ok w o sibs st .buffer resolved hchain
  have hleak : ∀ (c : Cmd) (r : RunResult),
      ((c.Run q w o).2 = .ok r ∨ (c.Text q w o).2 = .ok r
        ∨ (c.Successful q w o).2 = .ok r) →
      r.tasksJoined = r.tasksStarted := by
    intro c r hdisj
    cases hre : c.stage.expandedArgs with
    | none =>
      rcases hdisj with h | h | h <;>
        simp [Cmd.Run, Cmd.Text, Cmd.Successful, hre] at h
    | some res =>
      rcases hdisj with h | h | h
      · exact runStages_no_leak w o c.siblings c.stage .unset res r
          (by simpa [Cmd.Run, hre] using h)
      · exact runStages_no_leak w o c.siblings c.stage .buffer res r
          (by simpa [Cmd.Text, hre] using h)
      · exact runStages_no_leak w o c.siblings c.stage .unset res r
          (by simpa [Cmd.Successful, hre] using h)
  refine ⟨⟨r1, ?_, (hj1 hsibs).1, (hj1 hsibs).2, ht1, hl1⟩,
          ⟨r2, ?_, (hj2 hsibs).1, (hj2 hsibs).2, ht2, hl2⟩,
          ⟨r1, ?_, (hj1 hsibs).1, (hj1 hsibs).2, ht1, hl1⟩, hleak⟩ <;>
    simp [Cmd.Run, Cmd.Text, Cmd.Successful, hres, h1, h2]

/-- Closed instance of C3: in a pipeline whose primary fails to start, the
terminal call still joins the started sibling task, and receives equal
launches. -/
theorem sibling_result_always_joined_witness :
    (downStage.expandedArgs = some ["downstream"]
     ∧ [upStage] ≠ ([] : List Stage)
     ∧ chainOK startFailWorld [upStage])
    ∧ ((∃ r, ((Cmd.mk downStage [upStage]).Run plainJoin startFailWorld
          .primaryFirst).2 = .ok r
        ∧ r.siblingStarted = true ∧ r.siblingJoined = true
        ∧ r.tasksStarted = [upStage].length
        ∧ r.tasksJoined = [upStage].length)
      ∧ (∃ r, ((Cmd.mk downStage [upStage]).Text plainJoin startFailWorld
          .primaryFirst).2 = .ok r
        ∧ r.siblingStarted = true ∧ r.siblingJoined = true
        ∧ r.tasksStarted = [upStage].length
        ∧ r.tasksJoined = [upStage].length)
      ∧ (∃ r, ((Cmd.mk downStage [upStage]).Successful plainJoin
          startFailWorld .primaryFirst).2 = .ok r
        ∧ r.siblingStarted = true ∧ r.siblingJoined = true
        ∧ r.tasksStarted = [upStage].length
        ∧ r.tasksJoined = [upStage].length)
      ∧ (∀ (c : Cmd) (r : RunResult),
          ((c.Run plainJoin startFailWorld .primaryFirst).2 = .ok r
            ∨ (c.Text plainJoin startFailWorld .primaryFirst).2 = .ok r
            ∨ (c.Successful plainJoin startFailWorld .primaryFirst).2
                = .ok r) →
          r.tasksJoined = r.tasksStarted)) :=
  ⟨⟨by decide, by decide, ⟨rfl, ⟨["upstream"], by decide⟩, trivial⟩⟩,
   sibling_result_always_joined plainJoin startFailWorld .primaryFirst
     downStage [upStage] ["downstream"] (by decide) (by decide)
     ⟨rfl, ⟨["upstream"], by decide⟩, trivial⟩⟩

/-- C4: for every command (including pipelines), Successful returns
`(true, nil)` when the run's result is nil, `(false, nil)` when the result is
any ExitError (a merely-nonzero exit of any stage), and a non-nil error only
for a failure to start: any returned non-nil error is a non-ExitError that
originated from an `os.Pipe` failure or from some stage's process failing to
start. -/
theorem successful_trichotomy (q : List String → String) (w : World)
    (o : FinishOrder) (c : Cmd) (r : RunResult)
    (hr : (c.Successful q w o).2 = .ok r) :
    (r.err = none → successfulRet (c.Successful q w o).2 = some (true, none))
    ∧ (∀ n a, r.err = some (.exitError n a) →
        successfulRet (c.Successful q w o).2 = some (false, none))
    ∧ (∀ e, r.err = some e → isExitError e = false →
        successfulRet (c.Successful q w o).2 = some (false, some e))
    ∧ (∀ b e, successfulRet (c.Successful q w o).2 = some (b, some e) →
        b = false ∧ isExitError e = false
        ∧ ∃ m, e = .other m
            ∧ (w.pipeFail = some m
               ∨ ∃ stg res, (stg = c.stage ∨ stg ∈ c.siblings)
                   ∧ stg.expandedArgs = some res
                   ∧ w.proc res stg.envs = .startErr m)) := by
  refine ⟨?_, ?_, ?_, ?_⟩
  · intro h; simp [successfulRet, hr, h]
  · intro n a h; simp [successfulRet, hr, h, isExitError]
  · intro e h hx; simp [successfulRet, hr, h, hx]
  · intro b e hret
    rw [hr] at hret
    rcases herr : r.err with _ | e'
    · simp [successfulRet, herr] at hret
    · rcases hx : isExitError e' with _ | _ <;>
        simp [successfulRet, herr, hx] at hret
      obtain ⟨hb, he⟩ := hret
      subst he
      rcases e' with ⟨n, a⟩ | m
      · simp [isExitError] at hx
      · refine ⟨hb, rfl, m, rfl, ?_⟩
        rcases hres : c.stage.expandedArgs with _ | resolved
        · simp [Cmd.Successful, hres] at hr
        · have hrun : runStages w o c.stage c.siblings .unset resolved
              = .ok r := by
            simpa [Cmd.Successful, hres] using hr
          rcases runStages_other_origin w o c.siblings c.stage .unset resolved
              r m hrun herr with hp | hs | ⟨sib, hmem, res, hre, hst⟩
          · exact Or.inl hp
          · exact Or.inr ⟨c.stage, resolved, Or.inl rfl, hres, hs⟩
          · exact Or.inr ⟨sib, res, Or.inr hmem, hre, hst⟩

/-- Closed instance of C4 on a command whose process fails to start. -/
theorem successful_trichotomy_witness :
    ((Cmd.mk downStage []).Successful plainJoin startFailWorld
        .siblingFirst).2 = .ok failRes
    ∧ ((failRes.err = none →
        successfulRet ((Cmd.mk downStage []).Successful plainJoin
          startFailWorld .siblingFirst).2 = some (true, none))
      ∧ (∀ n a, failRes.err = some (.exitError n a) →
          successfulRet ((Cmd.mk downStage []).Successful plainJoin
            startFailWorld .siblingFirst).2 = some (false, none))
      ∧ (∀ e, failRes.err = some e → isExitError e = false →
          successfulRet ((Cmd.mk downStage []).Successful plainJoin
            startFailWorld .siblingFirst).2 = some (false, some e))
      ∧ (∀ b e, successfulRet ((Cmd.mk downStage []).Successful plainJoin
            startFailWorld .siblingFirst).2 = some (b, some e) →
          b = false ∧ isExitError e = false
          ∧ ∃ m, e = .other m
              ∧ (startFailWorld.pipeFail = some m
                 ∨ ∃ stg res,
                     (stg = (Cmd.mk downStage []).stage
                       ∨ stg ∈ (Cmd.mk downStage []).siblings)
                     ∧ stg.expandedArgs = some res
                     ∧ startFailWorld.proc res stg.envs = .startErr m))) :=
  ⟨by decide,
   successful_trichotomy plainJoin startFailWorld .siblingFirst
     (Cmd.mk downStage []) failRes (by decide)⟩


theorem runStages_buffer_nostdout (w : World) (o : FinishOrder)
    (sibs : List Stage) (st : Stage) (resolved : List String) :
    runStages w o { st with nostdout := true } sibs .buffer resolved
      = runStages w o st sibs .buffer resolved := by
  cases sibs <;> rfl

theorem logDebugStages_nostdout (q : List String → String) (st : Stage)
    (sibs : List Stage) :
    logDebugStages q { st with nostdout := true } sibs
      = logDebugStages q st sibs := by
  cases sibs <;> rfl

/-- C5: for every command, Text captures stdout exclusively into an in-memory
buffer — overriding both the NoStdout suppression flag and the context's
default stdout — and returns the buffer contents with only leading and
trailing whitespace trimmed, together with the run's error. -/
theorem text_captures_trimmed (q : List String → String) (w : World)
    (o : FinishOrder) (st : Stage) (sibs : List Stage)
    (resolved : List String) (hres : st.expandedArgs = some resolved)
    (hchain : chainOK w sibs) :
    ∃ r, ((Cmd.mk st sibs).Text q w o).2 = .ok r
      ∧ r.bufferOut = w.output resolved st.envs
      ∧ r.ctxOut = ""
      ∧ textRet ((Cmd.mk st sibs).Text q w o).2
          = some (trimSpace (w.output resolved st.envs), r.err)
      ∧ (Cmd.mk st sibs).NoStdout.Text q w o = (Cmd.mk st sibs).Text q w o := by
  obtain ⟨r, hOk, hbuf, hctx, _, _, _, _⟩ :=
    runStages_ok w o sibs st .buffer resolved hchain
  have hbuf' : r.bufferOut = w.output resolved st.envs := by
    simpa [resolveStdout, destWrites] using hbuf
  have hctx' : r.ctxOut = "" := by
    simpa [resolveStdout, destWrites] using hctx
  have hTxt : ((Cmd.mk st sibs).Text q w o).2 = .ok r := by
    simp [Cmd.Text, hres, hOk]
  have hnos : (Cmd.mk st sibs).NoStdout.Text q w o
      = (Cmd.mk st sibs).Text q w o := by
    have h2 : ((Cmd.mk st sibs).NoStdout.Text q w o).2
        = ((Cmd.mk st sibs).Text q w o).2 := by
      show (match st.expandedArgs with
            | none => Outcome.panicked
            | some res =>
              runStages w o { st with nostdout := true } sibs .buffer res)
          = (match st.expandedArgs with
            | none => Outcome.panicked
            | some res => runStages w o st sibs .buffer res)
      rw [hres]
      exact runStages_buffer_nostdout w o sibs st resolved
    exact Prod.ext (logDebugStages_nostdout q st sibs) h2
  exact ⟨r, hTxt, hbuf', hctx', by rw [hTxt]; simp [textRet, hbuf'], hnos⟩

/-- Closed instance of C5: a process writing `"  a\nb\n  "` yields the pair
`("a\nb", nil)` from Text, with nothing reaching the context stdout. -/
theorem text_captures_trimmed_witness :
    (downStage.expandedArgs = some ["downstream"]
     ∧ chainOK testWorld []
     ∧ trimSpace "  a\nb\n  " = "a\nb")
    ∧ (∃ r, ((Cmd.mk downStage []).Text plainJoin testWorld .siblingFirst).2
          = .ok r
        ∧ r.bufferOut = testWorld.output ["downstream"] downStage.envs
        ∧ r.ctxOut = ""
        ∧ textRet ((Cmd.mk downStage []).Text plainJoin testWorld
            .siblingFirst).2
            = some (trimSpace (testWorld.output ["downstream"]
                downStage.envs), r.err)
        ∧ (Cmd.mk downStage []).NoStdout.Text plainJoin testWorld
              .siblingFirst
            = (Cmd.mk downStage []).Text plainJoin testWorld .siblingFirst) :=
  ⟨⟨by decide, trivial, by decide⟩,
   text_captures_trimmed plainJoin testWorld .siblingFirst downStage []
     ["downstream"] (by decide) trivial⟩

/-- C6: in a two-stage pipeline with tracing enabled on both stages (the
context's debug sink is configured for each), every terminal method emits
exactly two debug lines, the upstream command's line strictly before the
downstream command's, for every oracle and every finish order — the lines
are produced sequentially by the caller before any process starts. -/
theorem pipeline_debug_two_lines (q : List String → String) (w w' : World)
    (o o' : FinishOrder) (down up : Stage)
    (hd : down.ctx.debugOn = true) (hu : up.ctx.debugOn = true) :
    ((Cmd.mk down [up]).Run q w o).1 = [debugLine q up, debugLine q down]
    ∧ ((Cmd.mk down [up]).Text q w o).1 = [debugLine q up, debugLine q down]
    ∧ ((Cmd.mk down [up]).Successful q w o).1
        = [debugLine q up, debugLine q down]
    ∧ ((Cmd.mk down [up]).Run q w o).1 = ((Cmd.mk down [up]).Run q w' o').1 := by
  have h : logDebugStages q down [up] = [debugLine q up, debugLine q down] := by
    rw [logDebugStages, logDebugStages, hd, hu]
    simp
  exact ⟨h, h, h, rfl⟩

/-- Closed instance of C6 on the pipeline of the package's own pipeline test
(`grep h | LC_ALL=C sort`) with the debug sink configured. -/
theorem pipeline_debug_two_lines_witness :
    (({ ctx := dbgCtx, args := ["sort"], envs := ["LC_ALL=C"],
        nostdout := false, nostderr := false : Stage }).ctx.debugOn = true
     ∧ ({ ctx := dbgCtx, args := ["grep", "h"], envs := [],
          nostdout := false, nostderr := false : Stage }).ctx.debugOn = true)
    ∧ (((Cmd.mk
          { ctx := dbgCtx, args := ["sort"], envs := ["LC_ALL=C"],
            nostdout := false, nostderr := false }
          [{ ctx := dbgCtx, args := ["grep", "h"], envs := [],
             nostdout := false, nostderr := false }]).Run plainJoin testWorld
          .siblingFirst).1
        = [debugLine plainJoin
            { ctx := dbgCtx, args := ["grep", "h"], envs := [],
              nostdout := false, nostderr := false },
           debugLine plainJoin
            { ctx := dbgCtx, args := ["sort"], envs := ["LC_ALL=C"],
              nostdout := false, nostderr := false }]
      ∧ ((Cmd.mk
          { ctx := dbgCtx, args := ["sort"], envs := ["LC_ALL=C"],
            nostdout := false, nostderr := false }
          [{ ctx := dbgCtx, args := ["grep", "h"], envs := [],
             nostdout := false, nostderr := false }]).Text plainJoin testWorld
          .siblingFirst).1
        = [debugLine plainJoin
            { ctx := dbgCtx, args := ["grep", "h"], envs := [],
              nostdout := false, nostderr := false },
           debugLine plainJoin
            { ctx := dbgCtx, args := ["sort"], envs := ["LC_ALL=C"],
              nostdout := false, nostderr := false }]
      ∧ ((Cmd.mk
          { ctx := dbgCtx, args := ["sort"], envs := ["LC_ALL=C"],
            nostdout := false, nostderr := false }
          [{ ctx := dbgCtx, args := ["grep", "h"], envs := [],
             nostdout := false, nostderr := false }]).Successful plainJoin
          testWorld .siblingFirst).1
        = [debugLine plainJoin
            { ctx := dbgCtx, args := ["grep", "h"], envs := [],
              nostdout := false, nostderr := false },
           debugLine plainJoin
            { ctx := dbgCtx, args := ["sort"], envs := ["LC_ALL=C"],
              nostdout := false, nostderr := false }]
      ∧ ((Cmd.mk
          { ctx := dbgCtx, args := ["sort"], envs := ["LC_ALL=C"],
            nostdout := false, nostderr := false }
          [{ ctx := dbgCtx, args := ["grep", "h"], envs := [],
             nostdout := false, nostderr := false }]).Run plainJoin testWorld
          .siblingFirst).1
        = ((Cmd.mk
          { ctx := dbgCtx, args := ["sort"], envs := ["LC_ALL=C"],
            nostdout := false, nostderr := false }
          [{ ctx := dbgCtx, args := ["grep", "h"], envs := [],
             nostdout := false, nostderr := false }]).Run plainJoin
          startFailWorld .primaryFirst).1) :=
  ⟨⟨rfl, rfl⟩,
   pipeline_debug_two_lines plainJoin testWorld startFailWorld .siblingFirst
     .primaryFirst
     { ctx := dbgCtx, args := ["sort"], envs := ["LC_ALL=C"],
       nostdout := false, nostderr := false }
     { ctx := dbgCtx, args := ["grep", "h"], envs := [],
       nostdout := false, nostderr := false } rfl rfl⟩


/-- C7 (divergence witness): the current `Cmd` builder has no per-command
debug flag or `Debug()` method at all; once the context's `DebugLogger` is
set, running the downstream of a pipeline automatically traces the sibling
too (`logDebug` recurses into the sibling unconditionally), and the emitted
lines carry no `"+ "` prefix.  Evaluated on the pipeline of the package's own
test `TestTextFromPipeWithDebug` — which calls `.Debug()` on each stage and
expects `"+ grep h"` then `"+ LC_ALL=C sort"` — the code emits both lines
without any per-command opt-in and without the prefix.  The inheritance part
of the claim does hold: `Pipe` copies neither env overrides nor suppression
flags. -/
theorem debug_trace_not_per_command :
    ((((dbgCtx.Command ["grep", "h"]).Pipe ["sort"]).Env "LC_ALL" "C").Text
        plainJoin testWorld .siblingFirst).1
      = ["grep h", "LC_ALL=C sort"]
    ∧ (((noCtx.Command ["a"]).Env "K" "V").NoOutput.Pipe ["b"]).stage.envs
        = []
    ∧ (((noCtx.Command ["a"]).Env "K" "V").NoOutput.Pipe
        ["b"]).stage.nostdout = false
    ∧ (((noCtx.Command ["a"]).Env "K" "V").NoOutput.Pipe
        ["b"]).stage.nostderr = false := by
  exact ⟨by decide, by decide, by decide, by decide⟩

theorem str_foldl_eq (l : List String) :
    ∀ acc : String, l.foldl (· ++ ·) acc = acc ++ l.foldl (· ++ ·) "" := by
  induction l with
  | nil => intro acc; simp [String.append_empty]
  | cons e rest ih =>
    intro acc
    simp only [List.foldl_cons]
    rw [ih (acc ++ e), ih ("" ++ e), String.empty_append, String.append_assoc]

theorem strJoin_cons (e : String) (l : List String) :
    String.join (e :: l) = e ++ String.join l := by
  simp only [String.join, List.foldl_cons]
  rw [str_foldl_eq l ("" ++ e), String.empty_append]

theorem envString_eq_join (q : List String → String) (l : List String) :
    envString q l = String.join (l.map (envEntry q)) := by
  have go : ∀ (l : List String) (acc : String),
      l.foldl (fun acc env => acc ++ envEntry q env) acc
        = acc ++ String.join (l.map (envEntry q)) := by
    intro l
    induction l with
    | nil => intro acc; simp [String.join, String.append_empty]
    | cons e rest ih =>
      intro acc
      simp only [List.foldl_cons, List.map_cons, ih, strJoin_cons,
        String.append_assoc]
  simpa [envString, String.empty_append] using go l ""

theorem splitAfterEq_of_no_eq (k v : List Char) (hk : '=' ∉ k) :
    splitAfterEq (k ++ '=' :: v) = some (k, v) := by
  induction k with
  | nil => simp [splitAfterEq]
  | cons c cs ih =>
    have hc : ¬(c = '=') := fun h => hk (h ▸ List.mem_cons_self _ _)
    have hcs : '=' ∉ cs := fun h => hk (List.mem_cons_of_mem _ h)
    simp [splitAfterEq, hc, ih hcs]

theorem envEntry_append (q : List String → String) (k v : String)
    (hk : '=' ∉ k.toList) :
    envEntry q (k ++ "=" ++ v) = k ++ "=" ++ q [v] ++ " " := by
  have h : (k ++ "=" ++ v).toList = k.toList ++ '=' :: v.toList := by
    show (k ++ "=" ++ v).data = k.data ++ '=' :: v.data
    simp [String.data_append]
  rw [envEntry, h, splitAfterEq_of_no_eq _ _ hk]
  rfl

theorem foldl_Env (kvs : List (String × String)) (c : Cmd) :
    kvs.foldl (fun c p => c.Env p.1 p.2) c
      = { c with stage := { c.stage with
            envs := c.stage.envs ++ kvs.map fun p => p.1 ++ "=" ++ p.2 } } := by
  induction kvs generalizing c with
  | nil =>
    obtain ⟨⟨cx, ca, ce, cn, cs⟩, csib⟩ := c
    simp
  | cons kv rest ih =>
    rw [List.foldl_cons, ih]
    obtain ⟨⟨cx, ca, ce, cn, cs⟩, csib⟩ := c
    simp [Cmd.Env, List.append_assoc]

/-- C8 counterexample: with the alias `g ↦ git --paginate` defined and
tracing enabled, running `g status` emits the trace line rendering the
constructed argv `g status`, not the resolved argv `git --paginate status`
that alias expansion produces for execution — so the trace line does not
show the command's resolved argv, refuting the claim as stated at this
concrete input. -/
theorem debug_trace_shows_unexpanded_argv :
    ((aliasCtx.Command ["g", "status"]).Run plainJoin testWorld
        .siblingFirst).1 = [plainJoin ["g", "status"]]
    ∧ (aliasCtx.Command ["g", "status"]).stage.expandedArgs
        = some ["git", "--paginate", "status"]
    ∧ ¬(((aliasCtx.Command ["g", "status"]).Run plainJoin testWorld
        .siblingFirst).1 = [plainJoin ["git", "--paginate", "status"]]) := by
  exact ⟨by decide, by decide, by decide⟩

/-- C8 (amended): each debug trace line for a tracing-enabled command
consists of that command's env overrides, each rendered as `KEY=` followed by
the shell-quoted value, space-separated in override order, followed by the
command's constructed argv with shell quoting applied — aliases are not
expanded in the trace: `ctx` ranges over arbitrary contexts, aliased or not,
and the line renders `args` as constructed.  The emitted trace does not
depend on the OS oracle or the finish order, being written before the
command executes. -/
theorem debug_line_format (q : List String → String) (ctx : Context)
    (hdebug : ctx.debugOn = true) (args : List String)
    (kvs : List (String × String)) (hk : ∀ p ∈ kvs, '=' ∉ p.1.toList)
    (w w' : World) (o o' : FinishOrder) :
    ((kvs.foldl (fun c p => c.Env p.1 p.2) (ctx.Command args)).Run q w o).1
      = [String.join (kvs.map fun p => p.1 ++ "=" ++ q [p.2] ++ " ")
          ++ q args]
    ∧ ((kvs.foldl (fun c p => c.Env p.1 p.2) (ctx.Command args)).Run q w o).1
      = ((kvs.foldl (fun c p => c.Env p.1 p.2) (ctx.Command args)).Run
          q w' o').1 := by
  have hline : envString q (List.map (fun p => p.1 ++ "=" ++ p.2) kvs)
      = String.join (kvs.map fun p => p.1 ++ "=" ++ q [p.2] ++ " ") := by
    rw [envString_eq_join, List.map_map]
    congr 1
    apply List.map_congr_left
    intro p hp
    exact envEntry_append q p.1 p.2 (hk p hp)
  rw [foldl_Env]
  constructor
  · show logDebugStages q _ [] = _
    rw [logDebugStages]
    simp [Context.Command, hdebug, debugLine, hline]
  · rfl

/-- Closed instance of C8 on one override `LC_ALL=C` and argv `sort`. -/
theorem debug_line_format_witness :
    (dbgCtx.debugOn = true
     ∧ (∀ p ∈ [("LC_ALL", "C")], '=' ∉ (p : String × String).1.toList))
    ∧ ((([("LC_ALL", "C")].foldl (fun c p => c.Env p.1 p.2)
          (dbgCtx.Command ["sort"])).Run plainJoin testWorld .siblingFirst).1
        = [String.join ([("LC_ALL", "C")].map
            (fun p => p.1 ++ "=" ++ plainJoin [p.2] ++ " "))
            ++ plainJoin ["sort"]]
      ∧ (([("LC_ALL", "C")].foldl (fun c p => c.Env p.1 p.2)
          (dbgCtx.Command ["sort"])).Run plainJoin testWorld
            .siblingFirst).1
        = (([("LC_ALL", "C")].foldl (fun c p => c.Env p.1 p.2)
          (dbgCtx.Command ["sort"])).Run plainJoin startFailWorld
            .primaryFirst).1) :=
  ⟨⟨rfl, by decide⟩,
   debug_line_format plainJoin dbgCtx rfl ["sort"] [("LC_ALL", "C")]
     (by decide) testWorld startFailWorld .siblingFirst .primaryFirst⟩

/-- C9: for a Cmd constructed with an empty argv, every terminal method
panics with an out-of-range index when `argv[0]` is read during alias
expansion — an unchecked precondition, not a returned error. -/
theorem empty_argv_panics (q : List String → String) (w : World)
    (o : FinishOrder) (c : Cmd) (h : c.stage.args = []) :
    c.stage.expandedArgs = none
    ∧ (c.Run q w o).2 = .panicked
    ∧ (c.Text q w o).2 = .panicked
    ∧ (c.Successful q w o).2 = .panicked := by
  have he : c.stage.expandedArgs = none := by
    simp [Stage.expandedArgs, h]
  exact ⟨he, by simp [Cmd.Run, he], by simp [Cmd.Text, he],
    by simp [Cmd.Successful, he]⟩

/-- Closed instance of C9 on `Command()` with no arguments. -/
theorem empty_argv_panics_witness :
    (noCtx.Command []).stage.args = ([] : List String)
    ∧ ((noCtx.Command []).stage.expandedArgs = none
      ∧ ((noCtx.Command []).Run plainJoin testWorld .siblingFirst).2
          = .panicked
      ∧ ((noCtx.Command []).Text plainJoin testWorld .siblingFirst).2
          = .panicked
      ∧ ((noCtx.Command []).Successful plainJoin testWorld
          .siblingFirst).2 = .panicked) :=
  ⟨by decide,
   empty_argv_panics plainJoin testWorld .siblingFirst (noCtx.Command [])
     (by decide)⟩

end Shelley

namespace GoSlice

theorem get_append_lt (s : Store) (c : List String) (i : Nat)
    (h : i < s.arrays.length) :
    (Store.mk (s.arrays ++ [c])).get i = s.get i := by
  simp [Store.get, List.getD_eq_getElem?_getD, List.getElem?_append_left h]

theorem get_append_self (s : Store) (c : List String) :
    (Store.mk (s.arrays ++ [c])).get s.arrays.length = c := by
  simp [Store.get, List.getD_append_right _ _ _ _ (Nat.le_refl _)]

theorem get_put_ne (s : Store) (i j : Nat) (c : List String) (h : i ≠ j) :
    (s.put i c).get j = s.get j := by
  simp [Store.put, Store.get, List.getD_eq_getElem?_getD,
    List.getElem?_set_ne h]

theorem get_put_self (s : Store) (i : Nat) (c : List String)
    (h : i < s.arrays.length) :
    (s.put i c).get i = c := by
  simp [Store.put, Store.get, List.getD_eq_getElem?_getD,
    List.getElem?_set_eq_of_lt c h]

theorem writeFrom_nil_self (l : List String) :
    writeFrom l l.length [] = l := by
  simp [writeFrom]

theorem expandedArgsS_spec (s : Store) (aliases : List (String × Slice))
    (name : String) (al : Slice) (rest : List String)
    (hl : aliases.lookup name = some al) (hv : al.arr < s.arrays.length) :
    ∃ s' : Store, expandedArgsS s aliases (name :: rest)
        = some (s', view s al ++ rest)
      ∧ (∀ i, i < s.arrays.length → s'.get i = s.get i)
      ∧ s.arrays.length ≤ s'.arrays.length := by
  have hclone :
      (Store.mk (s.arrays ++ [view s al])).get s.arrays.length = view s al :=
    get_append_self s (view s al)
  by_cases hr : rest = []
  · subst hr
    have hput : ((Store.mk (s.arrays ++ [view s al])).put s.arrays.length
        (view s al)).get s.arrays.length = view s al := by
      apply get_put_self
      simp
    refine ⟨(Store.mk (s.arrays ++ [view s al])).put s.arrays.length
        (view s al), ?_, ?_, ?_⟩
    · simp only [expandedArgsS, hl, goClone, alloc, goAppend, capOf, hclone,
        List.length_nil, Nat.add_zero]
      rw [if_pos (Nat.le_refl ((view s al).length)), writeFrom_nil_self]
      simp only [Option.some.injEq, Prod.mk.injEq, true_and]
      show ((((Store.mk (s.arrays ++ [view s al])).put s.arrays.length
          (view s al)).get s.arrays.length).take ((view s al).length + 0))
        = view s al ++ []
      rw [Nat.add_zero, hput, List.take_length, List.append_nil]
    · intro i hi
      rw [get_put_ne _ _ _ _ (Nat.ne_of_gt hi), get_append_lt s _ i hi]
    · simp [Store.put]
  · have hget2 : (Store.mk ((s.arrays ++ [view s al])
        ++ [view s al ++ rest])).get (s.arrays ++ [view s al]).length
        = view s al ++ rest :=
      get_append_self (Store.mk (s.arrays ++ [view s al])) _
    refine ⟨Store.mk ((s.arrays ++ [view s al]) ++ [view s al ++ rest]),
      ?_, ?_, ?_⟩
    · have hcond : ¬((view s al).length + rest.length
          ≤ (view s al).length) := by
        have : 0 < rest.length := List.length_pos.mpr hr
        omega
      have hcv : view (Store.mk (s.arrays ++ [view s al]))
          { arr := s.arrays.length, len := (view s al).length }
          = view s al := by
        show ((Store.mk (s.arrays ++ [view s al])).get
            s.arrays.length).take ((view s al).length) = view s al
        rw [hclone, List.take_length]
      simp only [expandedArgsS, hl, goClone, alloc, goAppend, capOf, hclone]
      rw [if_neg hcond]
      simp only [hcv, Option.some.injEq, Prod.mk.injEq, true_and]
      show (((Store.mk ((s.arrays ++ [view s al]) ++ [view s al ++ rest])).get
          (s.arrays ++ [view s al]).length).take
            ((view s al ++ rest).length : Nat))
        = view s al ++ rest
      rw [hget2, List.take_length]
    · intro i hi
      have hi' : i < (s.arrays ++ [view s al]).length := by
        simp
        omega
      rw [get_append_lt (Store.mk (s.arrays ++ [view s al])) _ i hi',
        get_append_lt s _ i hi]
    · simp

theorem lookup_map_snd (aliases : List (String × Slice))
    (f : Slice → List String) (a : String) :
    (aliases.map fun p => (p.1, f p.2)).lookup a
      = (aliases.lookup a).map f := by
  induction aliases with
  | nil => rfl
  | cons p rest ih =>
    simp only [List.map_cons, List.lookup]
    cases a == p.1 <;> simp [ih]

/-- Store-level alias expansion refines the value-level
`Stage.expandedArgs`: over the viewed alias table both produce the same
expanded argv. -/
theorem expandedArgsS_refines (s : Store) (aliases : List (String × Slice))
    (a0 : String) (rest : List String)
    (hvalid : ∀ al, aliases.lookup a0 = some al →
      al.arr < s.arrays.length) :
    ∃ s' : Store, ∃ v : List String,
      expandedArgsS s aliases (a0 :: rest) = some (s', v)
      ∧ Shelley.Stage.expandedArgs
          { ctx := { aliases := aliases.map fun p => (p.1, view s p.2),
                     debugOn := false },
            args := a0 :: rest, envs := [], nostdout := false,
            nostderr := false }
        = some v := by
  cases hl : aliases.lookup a0 with
  | none =>
    refine ⟨s, a0 :: rest, ?_, ?_⟩
    · simp [expandedArgsS, hl]
    · simp [Shelley.Stage.expandedArgs, lookup_map_snd, hl]
  | some al =>
    obtain ⟨s', hs', _, _⟩ :=
      expandedArgsS_spec s aliases a0 al rest hl (hvalid al hl)
    refine ⟨s', view s al ++ rest, hs', ?_⟩
    simp [Shelley.Stage.expandedArgs, lookup_map_snd, hl]

/-- C10: alias expansion clones the alias's argv prefix before appending the
command's remaining arguments, so expanding a command never mutates the
context's alias table: the alias's backing array is bytewise unchanged,
every valid slice of the store still views the same elements, and every
later command resolving the same alias observes the identical expansion. -/
theorem alias_expansion_no_mutation (s : Store)
    (aliases : List (String × Slice)) (name : String) (al : Slice)
    (rest : List String) (hl : aliases.lookup name = some al)
    (hv : al.arr < s.arrays.length) :
    ∃ s' : Store, expandedArgsS s aliases (name :: rest)
        = some (s', view s al ++ rest)
      ∧ s'.get al.arr = s.get al.arr
      ∧ (∀ sl : Slice, sl.arr < s.arrays.length → view s' sl = view s sl)
      ∧ (∀ rest' : List String, ∃ s2 : Store,
          expandedArgsS s' aliases (name :: rest')
            = some (s2, view s al ++ rest')) := by
  obtain ⟨s', hs', hframe, hlen⟩ :=
    expandedArgsS_spec s aliases name al rest hl hv
  have hval : ∀ sl : Slice, sl.arr < s.arrays.length →
      view s' sl = view s sl := by
    intro sl hsl
    simp only [view, hframe sl.arr hsl]
  refine ⟨s', hs', hframe _ hv, hval, ?_⟩
  intro rest'
  obtain ⟨s2, hs2, _, _⟩ := expandedArgsS_spec s' aliases name al rest' hl
    (Nat.lt_of_lt_of_le hv hlen)
  refine ⟨s2, ?_⟩
  rw [hs2, hval al hv]

/-- Closed instance of C10: a table mapping `g ↦ ["git"]`, expanded for
`g status`, leaves the stored alias array untouched and a second expansion
for `g log` sees the same prefix. -/
theorem alias_expansion_no_mutation_witness :
    ([("g", { arr := 0, len := 1 : Slice })].lookup "g"
        = some { arr := 0, len := 1 : Slice }
     ∧ ({ arr := 0, len := 1 : Slice }).arr
        < (Store.mk [["git"]]).arrays.length)
    ∧ (∃ s' : Store,
        expandedArgsS (Store.mk [["git"]])
            [("g", { arr := 0, len := 1 })] ("g" :: ["status"])
          = some (s', view (Store.mk [["git"]]) { arr := 0, len := 1 }
              ++ ["status"])
        ∧ s'.get 0 = (Store.mk [["git"]]).get 0
        ∧ (∀ sl : Slice, sl.arr < (Store.mk [["git"]]).arrays.length →
            view s' sl = view (Store.mk [["git"]]) sl)
        ∧ (∀ rest' : List String, ∃ s2 : Store,
            expandedArgsS s' [("g", { arr := 0, len := 1 })] ("g" :: rest')
              = some (s2, view (Store.mk [["git"]]) { arr := 0, len := 1 }
                  ++ rest'))) :=
  ⟨⟨by decide, by decide⟩,
   alias_expansion_no_mutation (Store.mk [["git"]])
     [("g", { arr := 0, len := 1 })] "g" { arr := 0, len := 1 } ["status"]
     (by decide) (by decide)⟩

end GoSlice

